import Mathlib

/-!
Verification development for the Whippletree shared-memory staging queue
subsystem (`queueShared.cuh`).

The embedding is sequential: a CUDA thread block executes the queue methods
cooperatively, and every method is race-free by construction (atomics
serialize slot reservation; barriers separate the phases of bulk copies), so
each public operation is modelled as a pure state transformer on the queue
state as observed by the block.  Machine `int` values are modelled as `Int`
(no overflow occurs in the ranges the theorems speak about); the payload
array `queueData` is modelled at record granularity as a total function
`Int → α` (the word-by-word strided copies in the source move whole records;
`sizeof(ExpectedData)/sizeof(uint) ≥ 1` words per record).
-/

/-- Pointwise update of a record array at index `i`. -/
def upd {α : Type} (d : Int → α) (i : Int) (x : α) : Int → α :=
  fun j => if j = i then x else d j

/-- State of `SharedBaseQueue<PROCEDURE, ProcId, NumElements, TWarpOptimization>`:
the capacity template parameter `NumElements`, the live element count
`counter`, and the record array `queueData`.  The packed header word is
modelled separately by `writeHeader` below. -/
structure SharedBaseQueue (α : Type) where
  NumElements : Int
  counter : Int
  queueData : Int → α

/-- `writeHeader`: `procId_maxnum = (ProcId << 16) | NumElements`, stored in a
32-bit unsigned field (hence the reduction modulo `2 ^ 32`). -/
def writeHeader (ProcId NumElements : Nat) : Nat :=
  ((ProcId <<< 16) ||| NumElements) % (2 ^ 32)

/-- `procId()`: `return procId_maxnum >> 16`. -/
def procId (w : Nat) : Nat := w >>> 16

/-- `numElement()`: `return procId_maxnum & 0xFFFF`. -/
def numElement (w : Nat) : Nat := w &&& 0xFFFF

/-- The non-warp-optimized `enqueue` path (lines 117-139) executed by a single
active lane (`ThreadsPerElement = 1`): check fullness, `atomicAdd` one slot,
roll the reservation back if the returned index is past capacity, then copy
the record into the reserved slot. -/
def SharedBaseQueue.enqueue1 {α : Type} (q : SharedBaseQueue α) (x : α) :
    Bool × SharedBaseQueue α :=
  if q.counter ≥ q.NumElements then (false, q)
  else
    let spos := q.counter
    let q1 : SharedBaseQueue α := { q with counter := q.counter + 1 }
    let q2 : SharedBaseQueue α :=
      if spos ≥ q1.NumElements then { q1 with counter := q1.counter - 1 } else q1
    if spos ≥ q2.NumElements then (false, q2)
    else (true, { q2 with queueData := upd q2.queueData spos x })

/-- The per-lane record writes of the warp-optimized enqueue: lane `k` writes
its record at `qpos = spos + k` unless `qpos ≥ NumElements` (in which case
that lane has already returned `false` without writing). -/
def writeFrom {α : Type} (cap : Int) (d : Int → α) : Int → List α → (Int → α)
  | _, [] => d
  | pos, x :: xs =>
    if pos < cap then writeFrom cap (upd d pos x) (pos + 1) xs
    else writeFrom cap d (pos + 1) xs

/-- The warp-optimized `enqueue` path (lines 87-115) for a group of active
lanes each submitting one record (`ThreadsPerElement = 1`); `xs` lists the
records of the active lanes in lane order.  One ballot counts the lanes, the
first lane issues a single `atomicAdd` of the whole count and gives back the
overshoot with an `atomicSub`, the base index is broadcast, and each lane
writes at `spos + mypos`, failing if its slot is past capacity.  Returns the
per-lane results in lane order and the final state. -/
def SharedBaseQueue.enqueueWarp {α : Type} (q : SharedBaseQueue α) (xs : List α) :
    List Bool × SharedBaseQueue α :=
  if q.counter ≥ q.NumElements then (xs.map (fun _ => false), q)
  else
    let ourcount : Int := xs.length
    let spos := q.counter
    let canPut := max 0 (min (q.NumElements - spos) ourcount)
    let counterAfter :=
      if canPut < ourcount then spos + ourcount - (ourcount - canPut)
      else spos + ourcount
    ((List.range xs.length).map (fun (k : Nat) => decide (spos + (k : Int) < q.NumElements)),
     { q with counter := counterAfter,
              queueData := writeFrom q.NumElements q.queueData spos xs })

/-- The non-warp-optimized `enqueue` path executed by a group of active lanes
in lockstep: all lanes read `counter` for the fullness check before any
atomic, then the per-lane `atomicAdd(1)` reservations serialize in lane
order, losers (reserved index past capacity) undoing their add. -/
def SharedBaseQueue.enqueueNoOptLanes {α : Type} (cap : Int) :
    Int → (Int → α) → List α → List Bool × Int × (Int → α)
  | c, d, [] => ([], c, d)
  | c, d, x :: xs =>
    if c ≥ cap then
      let r := SharedBaseQueue.enqueueNoOptLanes cap c d xs
      (false :: r.1, r.2)
    else
      let r := SharedBaseQueue.enqueueNoOptLanes cap (c + 1) (upd d c x) xs
      (true :: r.1, r.2)

/-- Whole-group wrapper for the non-warp-optimized path: the correctness-only
fallback issuing one atomic operation per record. -/
def SharedBaseQueue.enqueueNoOpt {α : Type} (q : SharedBaseQueue α) (xs : List α) :
    List Bool × SharedBaseQueue α :=
  if q.counter ≥ q.NumElements then (xs.map (fun _ => false), q)
  else
    let r := SharedBaseQueue.enqueueNoOptLanes q.NumElements q.counter q.queueData xs
    (r.1, { q with counter := r.2.1, queueData := r.2.2 })

/-- `dequeue(data, maxnum)` (lines 142-155): read `n = counter`, set
`counter = max(0, n - maxnum)`, and copy the `take = min(maxnum, n)` records
at positions `[n - take, n)` to the destination with a block-strided copy.
Returns `(take, copied records, new state)`. -/
def SharedBaseQueue.dequeue {α : Type} (q : SharedBaseQueue α) (maxnum : Int) :
    Int × List α × SharedBaseQueue α :=
  let n := q.counter
  let take := min maxnum n
  let offset := n - take
  (take,
   (List.range take.toNat).map (fun (k : Nat) => q.queueData (offset + (k : Int))),
   { q with counter := max 0 (n - maxnum) })

/-- `reserveRead(maxnum, only_read_all)` (lines 157-163): no mutation. -/
def SharedBaseQueue.reserveRead {α : Type} (q : SharedBaseQueue α)
    (maxnum : Int) (onlyReadAll : Bool) : Int :=
  let n := q.counter
  if onlyReadAll && decide (n < maxnum) then 0
  else max 0 (min n maxnum)

/-- `startRead(data, num)` (lines 164-171): returns the start index
`o = counter - num` (the returned data pointer is `queueData + o`); no
mutation. -/
def SharedBaseQueue.startRead {α : Type} (q : SharedBaseQueue α) (num : Int) : Int :=
  q.counter - num

/-- `finishRead(id, num)` (lines 172-200): with `c` the count at finish time,
the `additional = c - (id + num)` records appended after the read started
(the source computes this in words, `additional * wordsPerRecord`, with
`wordsPerRecord ≥ 1`, so the `> 0` test agrees) are slid down from positions
`[id + num, c)` to `[id, id + additional)` by a barrier-synchronized strided
copy, and `counter` is set to `c - num`. -/
def SharedBaseQueue.finishRead {α : Type} (q : SharedBaseQueue α) (id num : Int) :
    SharedBaseQueue α :=
  let c := q.counter
  let additional := c - (id + num)
  let d :=
    if 0 < additional then
      fun j => if id ≤ j ∧ j < id + additional then q.queueData (j + num) else q.queueData j
    else q.queueData
  { q with counter := c - num, queueData := d }

/-- One link of the `SharedQueueElement` chain: the compile-time per-procedure
metadata visible to `dequeue`/`dequeueSelected` (`findProcId` value,
`getElementCount`, `sizeof(ExpectedData)`, `Proc::sharedMemory`,
`getThreadCount`) together with the link's `SharedBaseQueue` state (whose
`NumElements` field is the link's capacity). -/
structure ChainEntry (α : Type) where
  procId : Int
  elementCount : Int
  expectedDataSize : Int
  sharedMemory : Int
  threadCount : Int
  buf : SharedBaseQueue α

/-- The effective `maxElements` bound of `SharedQueueElement::dequeue`
(lines 460-462): `getElementCount`, capped by
`maxShared / (sizeof(ExpectedData) + sharedMemory)` when `maxShared != -1`.
C++ `/` on nonnegative ints is truncating division, `Int.tdiv`. -/
def effMaxElements {α : Type} (e : ChainEntry α) (maxShared : Int) : Int :=
  if maxShared ≠ -1 then
    min e.elementCount (Int.tdiv maxShared (e.expectedDataSize + e.sharedMemory))
  else e.elementCount

/-- The `DequeueThreshold` of the chain scan: `minPercent*NumElements/100+1`. -/
def dequeueThreshold {α : Type} (e : ChainEntry α) (minPercent : Int) : Int :=
  Int.tdiv (minPercent * e.buf.NumElements) 100 + 1

/-- Eligibility test of one chain link in `SharedQueueElement::dequeue`
(line 466): `count >= min(maxElements, DequeueThreshold)`. -/
def eligibleAny {α : Type} (e : ChainEntry α) (maxShared minPercent : Int) : Prop :=
  e.buf.counter ≥ min (effMaxElements e maxShared) (dequeueThreshold e minPercent)

instance {α : Type} (e : ChainEntry α) (maxShared minPercent : Int) :
    Decidable (eligibleAny e maxShared minPercent) :=
  inferInstanceAs (Decidable
    (e.buf.counter ≥ min (effMaxElements e maxShared) (dequeueThreshold e minPercent)))

/-- `SharedQueueElement::dequeue` (lines 457-477) over the whole chain: scan
links in chain order; the first link whose count meets
`min(maxElements, DequeueThreshold)` is drained via the base queue's
`dequeue` with bound `maxElements`, and `take * getThreadCount` is returned
together with the copied records; the end-of-chain specialization returns 0.
Returns `(result, records, updated chain)`. -/
def dequeueAny {α : Type} :
    List (ChainEntry α) → Int → Int → Int × List α × List (ChainEntry α)
  | [], _, _ => (0, [], [])
  | e :: rest, maxShared, minPercent =>
    let maxElements := effMaxElements e maxShared
    if e.buf.counter ≥ min maxElements (dequeueThreshold e minPercent) then
      let r := e.buf.dequeue maxElements
      (r.1 * e.threadCount, r.2.1, { e with buf := r.2.2 } :: rest)
    else
      let n := dequeueAny rest maxShared minPercent
      (n.1, n.2.1, e :: n.2.2)

/-- `SharedQueueElement::dequeueSelected` (lines 479-498): `maxElements` is
`getElementCount`, capped by `maxNum` when `maxNum != -1`; the same
threshold scan as `dequeue` follows, draining the first link whose count
meets `min(maxElements, DequeueThreshold)` and returning its `take` count
and records.  The run-time `procId` argument is carried but never compared
against the link's procedure id anywhere in the scan. -/
def dequeueSelected {α : Type} :
    List (ChainEntry α) → Int → Int → Int → Int × List α × List (ChainEntry α)
  | [], _, _, _ => (0, [], [])
  | e :: rest, procId, maxNum, minPercent =>
    let maxElements := if maxNum ≠ -1 then min e.elementCount maxNum else e.elementCount
    if e.buf.counter ≥ min maxElements (dequeueThreshold e minPercent) then
      let r := e.buf.dequeue maxElements
      (r.1, r.2.1, { e with buf := r.2.2 } :: rest)
    else
      let n := dequeueSelected rest procId maxNum minPercent
      (n.1, n.2.1, e :: n.2.2)

/-- `SharedCombinerQueue::dequeue` (lines 644-653), with the external tier
abstracted as a state `ext` and a dequeue function `extDeq` (its result count
and new state): try the local chain at `SharedQueueFillupThreshold`; if that
returns no positive count, try the external tier; if that also returns no
positive count, try the local chain again with threshold 0. -/
def combinedDequeue {α σ : Type} (chain : List (ChainEntry α)) (ext : σ)
    (extDeq : σ → Int × σ) (maxShared fillThreshold : Int) :
    Int × List (ChainEntry α) × σ :=
  let d1 := dequeueAny chain maxShared fillThreshold
  if d1.1 > 0 then (d1.1, d1.2.2, ext)
  else
    let d2 := extDeq ext
    if d2.1 > 0 then (d2.1, d1.2.2, d2.2)
    else
      let d3 := dequeueAny d1.2.2 maxShared 0
      (d3.1, d3.2.2, d2.2)

/-- `Make16<Size>::Res = (Size+15)/16*16` (16-byte alignment rounding);
C++ truncating division. -/
def make16 (s : Int) : Int := Int.tdiv (s + 15) 16 * 16

/-- `SharedBaseQueue::HeaderSize = 4*sizeof(uint) = 16`. -/
def headerSize : Int := 16

/-- The compile-time sizing-directive list of the layout planner: the
`SQElementFixedNum` / `SQElementFixedSize` / `SQElementDyn` /
`EndSharedQueue` chain, each node carrying `sizeof(ExpectedData)` of its
procedure and its directive parameter. -/
inductive SQDescription : Type
  | endQ : SQDescription
  | fixedNum (recordSize num : Int) (next : SQDescription) : SQDescription
  | fixedSizeD (recordSize size : Int) (next : SQDescription) : SQDescription
  | dynShare (recordSize weight : Int) (next : SQDescription) : SQDescription

/-- `Overall::FixedSize`: the sum of the `Size` values of the fixed-count and
fixed-size nodes (dynamic nodes contribute nothing). -/
def fixedSizeOf : SQDescription → Int
  | .endQ => 0
  | .fixedNum rs n next => make16 (n * rs + headerSize) + fixedSizeOf next
  | .fixedSizeD _ s next => make16 s + fixedSizeOf next
  | .dynShare _ _ next => fixedSizeOf next

/-- `Overall::CountDynamicSize`: fixed nodes pass it through; an
`SQElementDyn` node computes `Make16<Next::CountDynamicSize +
TRemainingSizeRatio>::Res` (line 341) — the 16-byte rounding is applied to
the running ratio total itself. -/
def countDynamicSizeOf : SQDescription → Int
  | .endQ => 0
  | .fixedNum _ _ next => countDynamicSizeOf next
  | .fixedSizeD _ _ next => countDynamicSizeOf next
  | .dynShare _ w next => make16 (countDynamicSizeOf next + w)

/-- `SQElementDyn::Overall::Size` (line 343):
`Make16<((MaxSize - Root::FixedSize) / Root::CountDynamicSize - HeaderSize)
/ recordSize * recordSize + HeaderSize>::Res`.  The node's own ratio does
not appear. -/
def dynSize (root : SQDescription) (maxSize rs : Int) : Int :=
  make16 (Int.tdiv (Int.tdiv (maxSize - fixedSizeOf root) (countDynamicSizeOf root)
    - headerSize) rs * rs + headerSize)

/-- `Overall::Size` of the head node of a description. -/
def nodeSize (root : SQDescription) (maxSize : Int) : SQDescription → Int
  | .endQ => 0
  | .fixedNum rs n _ => make16 (n * rs + headerSize)
  | .fixedSizeD _ s _ => make16 s
  | .dynShare rs _ _ => dynSize root maxSize rs

/-- `Overall::NumElements` of the head node of a description. -/
def nodeNumElements (root : SQDescription) (maxSize : Int) : SQDescription → Int
  | .endQ => 0
  | .fixedNum _ n _ => n
  | .fixedSizeD rs s _ => Int.tdiv (s - headerSize) rs
  | .dynShare rs _ _ => Int.tdiv (dynSize root maxSize rs - headerSize) rs

/-- `Overall::SumSize`: the total of all node sizes (checked against
`MaxSize` by the `static_assert` on `requiredShared`). -/
def sumSizeOf (root : SQDescription) (maxSize : Int) : SQDescription → Int
  | .endQ => 0
  | d@(.fixedNum _ _ next) => nodeSize root maxSize d + sumSizeOf root maxSize next
  | d@(.fixedSizeD _ _ next) => nodeSize root maxSize d + sumSizeOf root maxSize next
  | d@(.dynShare _ _ next) => nodeSize root maxSize d + sumSizeOf root maxSize next

/-- The sizes of the dynamic-share nodes of a description, in chain order. -/
def dynSizesOf (root : SQDescription) (maxSize : Int) : SQDescription → List Int
  | .endQ => []
  | .fixedNum _ _ next => dynSizesOf root maxSize next
  | .fixedSizeD _ _ next => dynSizesOf root maxSize next
  | .dynShare rs _ next => dynSize root maxSize rs :: dynSizesOf root maxSize next

lemma testBit_false_of_lt {m k : Nat} (hm : m < 2 ^ k) {i : Nat} (hi : k ≤ i) :
    m.testBit i = false :=
  Nat.testBit_lt_two_pow (lt_of_lt_of_le hm (Nat.pow_le_pow_right (by norm_num) hi))

/-- C10: for `ProcId` and `NumElements` each below `2 ^ 16`, `writeHeader`
followed by `procId` / `numElement` is a round-trip, and because both values
share one 32-bit word, neither accessor can ever report a value of 65536 or
more (for `procId`, on any header word `w < 2 ^ 32`). -/
theorem writeHeader_roundtrip (p n w : Nat) (hp : p < 65536) (hn : n < 65536)
    (hw : w < 2 ^ 32) :
    procId (writeHeader p n) = p ∧ numElement (writeHeader p n) = n ∧
    procId w < 65536 ∧ numElement w < 65536 := by
  have hp16 : p < 2 ^ 16 := by norm_num at hp ⊢; omega
  have hn16 : n < 2 ^ 16 := by norm_num at hn ⊢; omega
  refine ⟨?_, ?_, ?_, ?_⟩
  · apply Nat.eq_of_testBit_eq
    intro i
    simp only [procId, writeHeader, Nat.testBit_shiftRight, Nat.testBit_mod_two_pow,
      Nat.testBit_lor, Nat.testBit_shiftLeft]
    by_cases h : i < 16
    · have h1 : n.testBit (16 + i) = false := testBit_false_of_lt hn16 (by omega)
      simp [h1, (by omega : 16 + i < 32), (by omega : 16 + i - 16 = i)]
    · have h1 : p.testBit i = false := testBit_false_of_lt hp16 (by omega)
      have h2 : n.testBit (16 + i) = false := testBit_false_of_lt hn16 (by omega)
      simp [h1, h2, (by omega : ¬(16 + i < 32)), (by omega : 16 + i - 16 = i)]
  · apply Nat.eq_of_testBit_eq
    intro i
    have e : (0xFFFF : Nat) = 2 ^ 16 - 1 := by norm_num
    simp only [numElement, writeHeader, e, Nat.testBit_land,
      Nat.testBit_two_pow_sub_one, Nat.testBit_mod_two_pow, Nat.testBit_lor,
      Nat.testBit_shiftLeft]
    by_cases h : i < 16
    · simp [h, (by omega : i < 32), (by omega : ¬(16 ≤ i))]
    · have h2 : n.testBit i = false := testBit_false_of_lt hn16 (by omega)
      simp [h, h2]
  · simp only [procId, Nat.shiftRight_eq_div_pow]
    norm_num at hw ⊢
    omega
  · simp only [numElement]
    have := Nat.and_le_right (n := w) (m := 0xFFFF)
    omega

/-- C10 witness at `ProcId = 300`, `NumElements = 2000`, `w = 2 ^ 32 - 1`. -/
theorem writeHeader_roundtrip_witness :
    (300 < 65536 ∧ 2000 < 65536 ∧ 4294967295 < 2 ^ 32) ∧
    (procId (writeHeader 300 2000) = 300 ∧ numElement (writeHeader 300 2000) = 2000 ∧
     procId 4294967295 < 65536 ∧ numElement 4294967295 < 65536) :=
  ⟨by decide, writeHeader_roundtrip 300 2000 4294967295 (by decide) (by decide) (by decide)⟩

/-- C1: from any state with `0 ≤ count = n ≤ NumElements` and any
`maxnum ≥ 0`, `dequeue(out, maxnum)` returns `take = min(maxnum, n)`, copies
exactly the `take` most recently enqueued records (array positions
`[n - take, n)`, in order) to the destination, leaves the count at
`n - take`, and touches neither the capacity nor the stored records. -/
theorem dequeue_spec {α : Type} (q : SharedBaseQueue α) (maxnum : Int)
    (h0 : 0 ≤ q.counter) (hcap : q.counter ≤ q.NumElements) (hm : 0 ≤ maxnum) :
    (q.dequeue maxnum).1 = min maxnum q.counter ∧
    (q.dequeue maxnum).2.2.counter = q.counter - min maxnum q.counter ∧
    (q.dequeue maxnum).2.1 =
      (List.range (min maxnum q.counter).toNat).map
        (fun (k : Nat) => q.queueData (q.counter - min maxnum q.counter + (k : Int))) ∧
    (q.dequeue maxnum).2.2.NumElements = q.NumElements ∧
    (q.dequeue maxnum).2.2.queueData = q.queueData := by
  unfold SharedBaseQueue.dequeue
  refine ⟨rfl, ?_, rfl, rfl, rfl⟩
  simp only
  omega

/-- C1 witness: the spec scenario — a capacity-8 buffer holding 5 records
(slot `i` holds `10 + i`), `dequeue(out, 3)` returns 3, yields the last 3
enqueued records `[12, 13, 14]`, and leaves the count at 2. -/
theorem dequeue_spec_witness :
    ((⟨8, 5, fun i => 10 + i⟩ : SharedBaseQueue Int).dequeue 3).1 = 3 ∧
    ((⟨8, 5, fun i => 10 + i⟩ : SharedBaseQueue Int).dequeue 3).2.1 = [12, 13, 14] ∧
    ((⟨8, 5, fun i => 10 + i⟩ : SharedBaseQueue Int).dequeue 3).2.2.counter = 2 := by
  obtain ⟨h1, h2, h3, -, -⟩ :=
    dequeue_spec (⟨8, 5, fun i => 10 + i⟩ : SharedBaseQueue Int) 3
      (by decide) (by decide) (by decide)
  refine ⟨by rw [h1]; decide, ?_, by rw [h2]; decide⟩
  rw [h3]
  decide

/-- C2: on a buffer whose count has reached `NumElements`, every enqueue
variant returns false and mutates nothing — neither the count nor any
stored record; and the full buffer is the sole failure condition: from any
state with `0 ≤ count < NumElements`, the single-record enqueue succeeds,
bumping the count by one and writing the record into the reserved slot. -/
theorem enqueue_full_spec {α : Type} (q qr : SharedBaseQueue α) (x y : α)
    (xs : List α) (hfull : q.NumElements ≤ q.counter)
    (h0 : 0 ≤ qr.counter) (hroom : qr.counter < qr.NumElements) :
    q.enqueue1 x = (false, q) ∧
    q.enqueueWarp xs = (xs.map (fun _ => false), q) ∧
    q.enqueueNoOpt xs = (xs.map (fun _ => false), q) ∧
    (qr.enqueue1 y).1 = true ∧
    (qr.enqueue1 y).2.counter = qr.counter + 1 ∧
    (qr.enqueue1 y).2.queueData = upd qr.queueData qr.counter y := by
  have hfull' : q.counter ≥ q.NumElements := hfull
  have hroom1 : ¬ qr.counter ≥ qr.NumElements := by omega
  refine ⟨?_, ?_, ?_, ?_, ?_, ?_⟩
  · unfold SharedBaseQueue.enqueue1
    rw [if_pos hfull']
  · unfold SharedBaseQueue.enqueueWarp
    rw [if_pos hfull']
  · unfold SharedBaseQueue.enqueueNoOpt
    rw [if_pos hfull']
  all_goals
    unfold SharedBaseQueue.enqueue1
    rw [if_neg hroom1]
    dsimp only
    rw [if_neg hroom1, if_neg hroom1]

/-- C2 witness: the spec scenario — a capacity-4 buffer after 4 successful
enqueues (count 4) rejects a 5th enqueue with no state change, while a
capacity-4 buffer with count 3 still accepts one. -/
theorem enqueue_full_spec_witness :
    ((4:Int) ≤ 4 ∧ 0 ≤ (3:Int) ∧ (3:Int) < 4) ∧
    ((⟨4, 4, fun _ => 0⟩ : SharedBaseQueue Int).enqueue1 5 =
       (false, (⟨4, 4, fun _ => 0⟩ : SharedBaseQueue Int)) ∧
     (⟨4, 4, fun _ => 0⟩ : SharedBaseQueue Int).enqueueWarp [5] =
       ([5].map (fun _ => false), (⟨4, 4, fun _ => 0⟩ : SharedBaseQueue Int)) ∧
     (⟨4, 4, fun _ => 0⟩ : SharedBaseQueue Int).enqueueNoOpt [5] =
       ([5].map (fun _ => false), (⟨4, 4, fun _ => 0⟩ : SharedBaseQueue Int)) ∧
     ((⟨4, 3, fun _ => 0⟩ : SharedBaseQueue Int).enqueue1 7).1 = true ∧
     ((⟨4, 3, fun _ => 0⟩ : SharedBaseQueue Int).enqueue1 7).2.counter = 3 + 1 ∧
     ((⟨4, 3, fun _ => 0⟩ : SharedBaseQueue Int).enqueue1 7).2.queueData =
       upd (fun _ => 0) 3 7) :=
  ⟨by decide,
   enqueue_full_spec (⟨4, 4, fun _ => 0⟩ : SharedBaseQueue Int)
     (⟨4, 3, fun _ => 0⟩ : SharedBaseQueue Int) 5 7 [5]
     (by decide) (by decide) (by decide)⟩

/-- C3: closing a read that was opened by `startRead` at `startIndex = id`
with `take = num` records, after any number of interleaved enqueues (so the
count `c` at finish time satisfies `id + num ≤ c`), `finishRead(id, num)`
slides the `c - (id + num)` records appended during the read down to `id`,
leaving the buffer dense — the records below `id` untouched and positions
`[id, c - num)` holding exactly the formerly appended records in order —
and sets the count to `c - num`. -/
theorem finishRead_spec {α : Type} (q : SharedBaseQueue α) (id num : Int)
    (hid : 0 ≤ id) (hnum : 0 ≤ num) (hle : id + num ≤ q.counter) :
    (q.finishRead id num).counter = q.counter - num ∧
    (∀ j, 0 ≤ j → j < id → (q.finishRead id num).queueData j = q.queueData j) ∧
    (∀ j, id ≤ j → j < q.counter - num →
      (q.finishRead id num).queueData j = q.queueData (j + num)) ∧
    (q.finishRead id num).NumElements = q.NumElements := by
  unfold SharedBaseQueue.finishRead
  refine ⟨rfl, ?_, ?_, rfl⟩
  · intro j hj hjid
    dsimp only
    by_cases hadd : 0 < q.counter - (id + num)
    · rw [if_pos hadd, if_neg (by omega)]
    · rw [if_neg hadd]
  · intro j hj1 hj2
    dsimp only
    by_cases hadd : 0 < q.counter - (id + num)
    · rw [if_pos hadd, if_pos ⟨hj1, by omega⟩]
    · exfalso; omega

/-- C3 witness: a read opened at count 5 taking the top 3 records
(`startIndex = 2`); 2 more records are enqueued before the close, so the
count at finish time is 7; `finishRead(2, 3)` slides the 2 appended records
down to positions 2 and 3 and leaves count 4. -/
theorem finishRead_spec_witness :
    (0 ≤ (2:Int) ∧ 0 ≤ (3:Int) ∧ (2:Int) + 3 ≤ 7) ∧
    ((⟨8, 7, fun i => 10 + i⟩ : SharedBaseQueue Int).finishRead 2 3).counter = 7 - 3 ∧
    ((⟨8, 7, fun i => 10 + i⟩ : SharedBaseQueue Int).finishRead 2 3).queueData 1 = 11 ∧
    ((⟨8, 7, fun i => 10 + i⟩ : SharedBaseQueue Int).finishRead 2 3).queueData 2 = 15 ∧
    ((⟨8, 7, fun i => 10 + i⟩ : SharedBaseQueue Int).finishRead 2 3).queueData 3 = 16 := by
  obtain ⟨h1, h2, h3, -⟩ :=
    finishRead_spec (⟨8, 7, fun i => 10 + i⟩ : SharedBaseQueue Int) 2 3
      (by decide) (by decide) (by decide)
  refine ⟨by decide, by rw [h1], ?_, ?_, ?_⟩
  · rw [h2 1 (by decide) (by decide)]; decide
  · rw [h3 2 (by decide) (by decide)]; decide
  · rw [h3 3 (by decide) (by decide)]; decide

lemma writeFrom_of_cap_le {α : Type} (cap : Int) (d : Int → α) (pos : Int)
    (xs : List α) (h : cap ≤ pos) : writeFrom cap d pos xs = d := by
  induction xs generalizing pos d with
  | nil => rfl
  | cons x xs ih =>
    unfold writeFrom
    rw [if_neg (by omega)]
    exact ih d (pos + 1) (by omega)

lemma map_range_decide_all_false {cap c : Int} (h : cap ≤ c) (n : Nat) :
    (List.range n).map (fun (k : Nat) => decide (c + (k : Int) < cap)) =
      List.replicate n false := by
  induction n with
  | zero => rfl
  | succ m ih =>
    rw [List.range_succ, List.map_append, ih, List.map_singleton,
      List.replicate_succ']
    have : ¬ c + (m : Int) < cap := by
      have : (0 : Int) ≤ (m : Int) := by positivity
      omega
    simp [this]

lemma map_range_decide_succ {cap c : Int} (n : Nat) :
    (List.range (n + 1)).map (fun (k : Nat) => decide (c + (k : Int) < cap)) =
      decide (c < cap) ::
        (List.range n).map (fun (k : Nat) => decide (c + 1 + (k : Int) < cap)) := by
  rw [List.range_succ_eq_map]
  simp only [List.map_cons, List.map_map, Nat.cast_zero, add_zero]
  congr 1
  apply List.map_congr_left
  intro a _
  simp only [Function.comp_apply, decide_eq_decide]
  push_cast
  omega

lemma enqueueNoOptLanes_closed {α : Type} (cap : Int) (xs : List α) :
    ∀ (c : Int) (d : Int → α),
      SharedBaseQueue.enqueueNoOptLanes cap c d xs =
        ((List.range xs.length).map (fun (k : Nat) => decide (c + (k : Int) < cap)),
         c + max 0 (min (cap - c) (xs.length : Int)),
         writeFrom cap d c xs) := by
  induction xs with
  | nil =>
    intro c d
    have h1 : max 0 (min (cap - c) ((0 : Nat) : Int)) = 0 := by
      simp only [Nat.cast_zero]
      omega
    simp only [SharedBaseQueue.enqueueNoOptLanes, List.length_nil, List.range_zero,
      List.map_nil, Nat.cast_zero, writeFrom]
    rw [(by omega : c + max 0 (min (cap - c) 0) = c)]
  | cons x xs ih =>
    intro c d
    unfold SharedBaseQueue.enqueueNoOptLanes
    by_cases h : c ≥ cap
    · rw [if_pos h]
      dsimp only
      rw [ih c d]
      simp only [Prod.mk.injEq]
      refine ⟨?_, ?_, ?_⟩
      · rw [map_range_decide_all_false (by omega), List.length_cons,
          map_range_decide_all_false (by omega), List.replicate_succ]
      · push_cast
        omega
      · rw [writeFrom, if_neg (by omega), writeFrom_of_cap_le cap d c xs (by omega),
          writeFrom_of_cap_le cap d (c + 1) xs (by omega)]
    · rw [if_neg h]
      dsimp only
      rw [ih (c + 1) (upd d c x)]
      simp only [Prod.mk.injEq]
      refine ⟨?_, ?_, ?_⟩
      · have hc : decide (c < cap) = true := by
          simp only [decide_eq_true_eq]
          omega
        rw [List.length_cons, map_range_decide_succ, hc]
      · simp only [List.length_cons]
        push_cast
        omega
      · rw [writeFrom, if_pos (by omega)]

/-- C9: the warp-optimized enqueue path (`TWarpOptimization = true`: ballot,
one `atomicAdd` per group, broadcast, per-lane slot computation) and the
non-optimized fallback (`TWarpOptimization = false`: one `atomicAdd` per
record) are equivalent on every buffer state and every lane-ordered record
list: the per-lane success results, the final count, and the final contents
of the record array coincide exactly. -/
theorem enqueueWarp_eq_enqueueNoOpt {α : Type} (q : SharedBaseQueue α)
    (xs : List α) : q.enqueueWarp xs = q.enqueueNoOpt xs := by
  unfold SharedBaseQueue.enqueueWarp SharedBaseQueue.enqueueNoOpt
  by_cases h : q.counter ≥ q.NumElements
  · rw [if_pos h, if_pos h]
  · rw [if_neg h, if_neg h, enqueueNoOptLanes_closed]
    dsimp only
    simp only [Prod.mk.injEq, SharedBaseQueue.mk.injEq, eq_self_iff_true, true_and,
      and_true]
    have hlen : (0 : Int) ≤ (xs.length : Int) := by positivity
    split <;> omega

/-- C8: the live count stays within `[0, NumElements]` under every operation
of the staging buffer: from any state with `0 ≤ count ≤ NumElements`, the
single-record enqueue, the warp-cooperative enqueue, `dequeue` (with a
nonnegative request), and a properly opened two-phase read closed by
`finishRead(id, num)` (with `0 ≤ id`, `0 ≤ num`, `id + num ≤ count`, i.e.
the read was opened by `startRead` and the count has only grown since) all
leave `0 ≤ count ≤ NumElements`; `reserveRead` and `startRead` do not
mutate the state at all. -/
theorem count_range_invariant {α : Type} (q : SharedBaseQueue α) (x : α)
    (xs : List α) (maxnum id num : Int)
    (h0 : 0 ≤ q.counter) (hcap : q.counter ≤ q.NumElements)
    (hm : 0 ≤ maxnum) (hid : 0 ≤ id) (hnum : 0 ≤ num)
    (hle : id + num ≤ q.counter) :
    (0 ≤ (q.enqueue1 x).2.counter ∧ (q.enqueue1 x).2.counter ≤ q.NumElements) ∧
    (0 ≤ (q.enqueueWarp xs).2.counter ∧
      (q.enqueueWarp xs).2.counter ≤ q.NumElements) ∧
    (0 ≤ (q.dequeue maxnum).2.2.counter ∧
      (q.dequeue maxnum).2.2.counter ≤ q.NumElements) ∧
    (0 ≤ (q.finishRead id num).counter ∧
      (q.finishRead id num).counter ≤ q.NumElements) := by
  refine ⟨?_, ?_, ?_, ?_⟩
  · unfold SharedBaseQueue.enqueue1
    by_cases hf : q.counter ≥ q.NumElements
    · rw [if_pos hf]
      exact ⟨h0, hcap⟩
    · rw [if_neg hf]
      dsimp only
      rw [if_neg hf]
      dsimp only
      rw [if_neg hf]
      dsimp only
      omega
  · unfold SharedBaseQueue.enqueueWarp
    by_cases hf : q.counter ≥ q.NumElements
    · rw [if_pos hf]
      exact ⟨h0, hcap⟩
    · rw [if_neg hf]
      dsimp only
      have hlen : (0 : Int) ≤ (xs.length : Int) := by positivity
      split <;> omega
  · unfold SharedBaseQueue.dequeue
    dsimp only
    omega
  · unfold SharedBaseQueue.finishRead
    dsimp only
    omega

/-- C8 witness at a capacity-8 buffer with count 5, `maxnum = 3`, a read
opened at index 2 taking 3 records, and a two-lane warp enqueue. -/
theorem count_range_invariant_witness :
    (0 ≤ (5:Int) ∧ (5:Int) ≤ 8 ∧ 0 ≤ (3:Int) ∧ 0 ≤ (2:Int) ∧ 0 ≤ (3:Int) ∧
      (2:Int) + 3 ≤ 5) ∧
    ((0 ≤ ((⟨8, 5, fun _ => 0⟩ : SharedBaseQueue Int).enqueue1 1).2.counter ∧
       ((⟨8, 5, fun _ => 0⟩ : SharedBaseQueue Int).enqueue1 1).2.counter ≤ 8) ∧
     (0 ≤ ((⟨8, 5, fun _ => 0⟩ : SharedBaseQueue Int).enqueueWarp [1, 2]).2.counter ∧
       ((⟨8, 5, fun _ => 0⟩ : SharedBaseQueue Int).enqueueWarp [1, 2]).2.counter ≤ 8) ∧
     (0 ≤ ((⟨8, 5, fun _ => 0⟩ : SharedBaseQueue Int).dequeue 3).2.2.counter ∧
       ((⟨8, 5, fun _ => 0⟩ : SharedBaseQueue Int).dequeue 3).2.2.counter ≤ 8) ∧
     (0 ≤ ((⟨8, 5, fun _ => 0⟩ : SharedBaseQueue Int).finishRead 2 3).counter ∧
       ((⟨8, 5, fun _ => 0⟩ : SharedBaseQueue Int).finishRead 2 3).counter ≤ 8)) :=
  ⟨by decide,
   count_range_invariant (⟨8, 5, fun _ => 0⟩ : SharedBaseQueue Int) 1 [1, 2] 3 2 3
     (by decide) (by decide) (by decide) (by decide) (by decide) (by decide)⟩

/-- C5: the any-type dequeue of the chain scans links in chain order with
the eligibility rule `count ≥ min(effective cap, minPercent*capacity/100+1)`:
all earlier links being ineligible, the first eligible link is drained via
the base `dequeue` (bounded by its effective cap) and its
`take * threadCount` and records are returned with only that link's buffer
changed; and on a chain with no eligible link the scan returns 0 and changes
nothing. -/
theorem dequeueAny_first_eligible {α : Type} (pre : List (ChainEntry α))
    (e : ChainEntry α) (post chain2 : List (ChainEntry α))
    (maxShared minPercent : Int)
    (hpre : ∀ x ∈ pre, ¬ eligibleAny x maxShared minPercent)
    (he : eligibleAny e maxShared minPercent)
    (hnone : ∀ x ∈ chain2, ¬ eligibleAny x maxShared minPercent) :
    dequeueAny (pre ++ e :: post) maxShared minPercent =
      ((e.buf.dequeue (effMaxElements e maxShared)).1 * e.threadCount,
       (e.buf.dequeue (effMaxElements e maxShared)).2.1,
       pre ++
         { e with buf := (e.buf.dequeue (effMaxElements e maxShared)).2.2 } :: post) ∧
    dequeueAny chain2 maxShared minPercent = (0, [], chain2) := by
  simp only [eligibleAny] at hpre he hnone
  constructor
  · revert hpre
    induction pre with
    | nil =>
      intro _
      simp only [List.nil_append]
      unfold dequeueAny
      dsimp only
      rw [if_pos he]
    | cons a pre ih =>
      intro hpre
      simp only [List.cons_append]
      unfold dequeueAny
      dsimp only
      rw [if_neg (hpre a (by simp))]
      rw [ih (fun x hx => hpre x (by simp [hx]))]
  · revert hnone
    induction chain2 with
    | nil =>
      intro _
      rfl
    | cons a ch ih =>
      intro hnone
      unfold dequeueAny
      dsimp only
      rw [if_neg (hnone a (by simp))]
      rw [ih (fun x hx => hnone x (by simp [hx]))]

/-- C5 witness: a 2-link chain, `maxShared = -1`, `minPercent = 80`; the
first link (capacity 4, count 1) misses the threshold
`min(4, 80*4/100+1) = 4`, the second (capacity 4, count 4) meets it and is
drained. -/
theorem dequeueAny_first_eligible_witness :
    ((∀ x ∈ [(⟨0, 4, 1, 0, 1, ⟨4, 1, fun _ => 3⟩⟩ : ChainEntry Int)],
        ¬ eligibleAny x (-1) 80) ∧
     eligibleAny (⟨1, 4, 1, 0, 1, ⟨4, 4, fun _ => 9⟩⟩ : ChainEntry Int) (-1) 80) ∧
    dequeueAny
        [(⟨0, 4, 1, 0, 1, ⟨4, 1, fun _ => 3⟩⟩ : ChainEntry Int),
         ⟨1, 4, 1, 0, 1, ⟨4, 4, fun _ => 9⟩⟩] (-1) 80 =
      (((⟨1, 4, 1, 0, 1, ⟨4, 4, fun _ => 9⟩⟩ : ChainEntry Int).buf.dequeue
          (effMaxElements (⟨1, 4, 1, 0, 1, ⟨4, 4, fun _ => 9⟩⟩ : ChainEntry Int) (-1))).1
         * (⟨1, 4, 1, 0, 1, ⟨4, 4, fun _ => 9⟩⟩ : ChainEntry Int).threadCount,
       ((⟨1, 4, 1, 0, 1, ⟨4, 4, fun _ => 9⟩⟩ : ChainEntry Int).buf.dequeue
          (effMaxElements (⟨1, 4, 1, 0, 1, ⟨4, 4, fun _ => 9⟩⟩ : ChainEntry Int) (-1))).2.1,
       [(⟨0, 4, 1, 0, 1, ⟨4, 1, fun _ => 3⟩⟩ : ChainEntry Int)] ++
         [{ (⟨1, 4, 1, 0, 1, ⟨4, 4, fun _ => 9⟩⟩ : ChainEntry Int) with
             buf := ((⟨1, 4, 1, 0, 1, ⟨4, 4, fun _ => 9⟩⟩ : ChainEntry Int).buf.dequeue
               (effMaxElements (⟨1, 4, 1, 0, 1, ⟨4, 4, fun _ => 9⟩⟩ : ChainEntry Int) (-1))).2.2 }]) :=
  ⟨⟨by decide, by decide⟩,
   (dequeueAny_first_eligible [(⟨0, 4, 1, 0, 1, ⟨4, 1, fun _ => 3⟩⟩ : ChainEntry Int)]
      (⟨1, 4, 1, 0, 1, ⟨4, 4, fun _ => 9⟩⟩ : ChainEntry Int) [] [] (-1) 80
      (by decide) (by decide) (by decide)).1⟩

/-- C7: the combined dequeue tries the local chain at the configured fill
threshold, then (only on a non-positive yield) the external tier, then (only
if that too yields nothing) the local chain at threshold 0; the returned
count is the first of the three attempts to yield a positive count, and —
when every attempt yields a nonnegative count — it is zero exactly when all
three attempts yield zero. -/
theorem combinedDequeue_cascade {α σ : Type} (chain : List (ChainEntry α))
    (ext : σ) (extDeq : σ → Int × σ) (maxShared fillThreshold : Int)
    (h1 : 0 ≤ (dequeueAny chain maxShared fillThreshold).1)
    (h2 : 0 ≤ (extDeq ext).1)
    (h3 : 0 ≤ (dequeueAny (dequeueAny chain maxShared fillThreshold).2.2
            maxShared 0).1) :
    (combinedDequeue chain ext extDeq maxShared fillThreshold).1 =
      (if 0 < (dequeueAny chain maxShared fillThreshold).1 then
        (dequeueAny chain maxShared fillThreshold).1
      else if 0 < (extDeq ext).1 then (extDeq ext).1
      else (dequeueAny (dequeueAny chain maxShared fillThreshold).2.2
        maxShared 0).1) ∧
    ((combinedDequeue chain ext extDeq maxShared fillThreshold).1 = 0 ↔
      ((dequeueAny chain maxShared fillThreshold).1 = 0 ∧ (extDeq ext).1 = 0 ∧
       (dequeueAny (dequeueAny chain maxShared fillThreshold).2.2
         maxShared 0).1 = 0)) := by
  unfold combinedDequeue
  dsimp only
  by_cases hd1 : (dequeueAny chain maxShared fillThreshold).1 > 0
  · rw [if_pos hd1, if_pos hd1]
    exact ⟨rfl, by constructor <;> (intro h; omega)⟩
  · rw [if_neg hd1, if_neg hd1]
    by_cases hd2 : (extDeq ext).1 > 0
    · rw [if_pos hd2, if_pos hd2]
      exact ⟨rfl, by constructor <;> (intro h; omega)⟩
    · rw [if_neg hd2, if_neg hd2]
      exact ⟨rfl, by constructor <;> (intro h; omega)⟩

/-- C7 witness: an empty local chain (both local attempts yield 0) and an
external tier yielding 3 — the combined dequeue returns the external
tier's count. -/
theorem combinedDequeue_cascade_witness :
    (0 ≤ (dequeueAny ([] : List (ChainEntry Int)) (-1) 80).1 ∧
     0 ≤ ((fun s => ((3 : Int), s)) ()).1 ∧
     0 ≤ (dequeueAny (dequeueAny ([] : List (ChainEntry Int)) (-1) 80).2.2 (-1) 0).1) ∧
    ((combinedDequeue ([] : List (ChainEntry Int)) () (fun s => ((3 : Int), s)) (-1) 80).1 =
      (if 0 < (dequeueAny ([] : List (ChainEntry Int)) (-1) 80).1 then
        (dequeueAny ([] : List (ChainEntry Int)) (-1) 80).1
      else if 0 < ((fun s => ((3 : Int), s)) ()).1 then ((fun s => ((3 : Int), s)) ()).1
      else (dequeueAny (dequeueAny ([] : List (ChainEntry Int)) (-1) 80).2.2 (-1) 0).1) ∧
     ((combinedDequeue ([] : List (ChainEntry Int)) () (fun s => ((3 : Int), s)) (-1) 80).1 = 0 ↔
       ((dequeueAny ([] : List (ChainEntry Int)) (-1) 80).1 = 0 ∧
        ((fun s => ((3 : Int), s)) ()).1 = 0 ∧
        (dequeueAny (dequeueAny ([] : List (ChainEntry Int)) (-1) 80).2.2 (-1) 0).1 = 0))) :=
  ⟨⟨by decide, by decide, by decide⟩,
   combinedDequeue_cascade ([] : List (ChainEntry Int)) () (fun s => ((3 : Int), s))
     (-1) 80 (by decide) (by decide) (by decide)⟩

/-- C6 counterexample: `dequeueSelected` never compares its run-time type id
against the links' procedure ids.  On a chain whose first link has type id 0
and whose second has type id 1 (both full, capacity 4), a call asking for
type id 1 drains the type-0 link and returns its 4 records (value 7), while
the type-1 buffer (holding records of value 9) keeps its count of 4. -/
theorem dequeueSelected_ignores_typeId :
    (dequeueSelected
        [(⟨0, 4, 1, 0, 1, ⟨4, 4, fun _ => 7⟩⟩ : ChainEntry Int),
         ⟨1, 4, 1, 0, 1, ⟨4, 4, fun _ => 9⟩⟩] 1 (-1) 80).1 = 4 ∧
    (dequeueSelected
        [(⟨0, 4, 1, 0, 1, ⟨4, 4, fun _ => 7⟩⟩ : ChainEntry Int),
         ⟨1, 4, 1, 0, 1, ⟨4, 4, fun _ => 9⟩⟩] 1 (-1) 80).2.1 = [7, 7, 7, 7] ∧
    (dequeueSelected
        [(⟨0, 4, 1, 0, 1, ⟨4, 4, fun _ => 7⟩⟩ : ChainEntry Int),
         ⟨1, 4, 1, 0, 1, ⟨4, 4, fun _ => 9⟩⟩] 1 (-1) 80).2.2.map
      (fun e => (e.procId, e.buf.counter)) = [(0, 0), (1, 4)] := by
  refine ⟨by decide, by decide, by decide⟩

/-- The spec scenario for the layout planner: one fixed-count type of 100
items and two dynamic-share types of ratio 1:1, every record 4 bytes
(one word), over a 1024-byte budget. -/
def c4Scenario : SQDescription :=
  .fixedNum 4 100 (.dynShare 4 1 (.dynShare 4 1 .endQ))

/-- C4 evaluation: on the scenario above the planner's fixed total is
`Make16(100*4+16) = 416`, leaving a 608-byte remainder; but
`CountDynamicSize` 16-byte-rounds the running ratio total
(`Make16(Make16(0+1)+1) = 32` instead of 2), and each dynamic entry's
`Size` is `(remainder / CountDynamicSize)`-based with the entry's own ratio
unused, so each dynamic buffer gets 16 bytes (capacity 0): the two dynamic
sizes sum to 32, not to the 608-byte remainder the spec's proportional
division requires. -/
theorem dynShare_sizes_not_proportional :
    fixedSizeOf c4Scenario = 416 ∧
    countDynamicSizeOf c4Scenario = 32 ∧
    dynSizesOf c4Scenario 1024 c4Scenario = [16, 16] ∧
    nodeNumElements c4Scenario 1024 (.dynShare 4 1 (.dynShare 4 1 .endQ)) = 0 ∧
    nodeNumElements c4Scenario 1024 (.dynShare 4 1 .endQ) = 0 ∧
    sumSizeOf c4Scenario 1024 c4Scenario = 448 ∧
    ¬ (16 + 16 = 1024 - fixedSizeOf c4Scenario) := by
  refine ⟨by decide, by decide, by decide, by decide, by decide, by decide, by decide⟩
